import Mathlib

/-!
Shallow embedding of the `transparentd` daemon (a small i3 window-transparency
daemon) and verification of its specification claims.

Source layout mirrored here:
* `src/config.rs` — `Opacity` (an `f64` constrained to `[0, 1]`) and its serde visitor;
* `src/i3.rs` — the `AllWindows` stack iterator over the i3 container tree;
* `src/main.rs` — the daemon state, the opacity-setting helpers and the event loop body;
* `src/ipc.rs` — the control-socket wire format and the instance lock.

Floating-point doubles are embedded as the inductive `F64`: NaN, the two
infinities, and finite values as exact rationals.  The only f64 operations the
source performs on opacities are the IEEE comparisons `>=` and `<=`, which this
embedding reproduces exactly (every comparison involving NaN is false; `0.0`
and `1.0` are exactly representable, and on finite doubles `<=` agrees with the
rational order).
-/

/-- Embedding of `f64` as used by `config.rs`: NaN, infinities, and finite
values as exact rationals. -/
inductive F64 where
  | nan
  | neginf
  | posinf
  | finite (q : ℚ)
deriving DecidableEq

/-- IEEE `<=` on doubles: any comparison involving NaN is false; otherwise the
extended-real order. -/
def F64.le : F64 → F64 → Bool
  | .nan, _ => false
  | _, .nan => false
  | .neginf, _ => true
  | _, .neginf => false
  | _, .posinf => true
  | .posinf, _ => false
  | .finite a, .finite b => a ≤ b

/-- IEEE `>=`: `a >= b` holds exactly when `b <= a` (false whenever NaN is
involved). -/
def F64.ge (a b : F64) : Bool := F64.le b a

/-- `config.rs`: `pub struct Opacity(f64)` — the field is private in the
source; the only constructors are `Opacity::new`, `Opacity::max` and the serde
visitor below. -/
structure Opacity where
  val : F64
deriving DecidableEq

/-- `config.rs` `Opacity::new`: `if opacity >= 0.0 && opacity <= 1.0 { Some(..) } else { None }`. -/
def Opacity.new (x : F64) : Option Opacity :=
  if x.ge (.finite 0) && x.le (.finite 1) then some ⟨x⟩ else none

/-- `config.rs` `Opacity::max`: `Self(1.0)`. -/
def Opacity.max : Opacity := ⟨.finite 1⟩

/-- Spec-side reading of the range invariant: the wrapped double is a finite
value lying in the closed rational interval `[0, 1]`. -/
def Opacity.inRange (o : Opacity) : Prop :=
  ∃ q : ℚ, o.val = .finite q ∧ 0 ≤ q ∧ q ≤ 1

/-- `config.rs` `OpacityVisitor::visit_f64`: delegate to `Opacity::new`, turning
`None` into a deserialization error (the error message string is elided). -/
def OpacityVisitor.visit_f64 (x : F64) : Except Unit Opacity :=
  match Opacity.new x with
  | some o => .ok o
  | none => .error ()

/-- `config.rs` `Config`: the two recognized configuration fields. -/
structure Config where
  transparency_at_start : Bool
  opacity : Opacity

/-- `i3.rs` / i3ipc `Node`: the container-tree node, restricted to the fields
the daemon reads (`id`, `focused`, `nodes`).  Workspaces, split containers and
the root are all `Node`s, exactly as in the i3 tree. -/
inductive Node where
  | mk (id : Int) (focused : Bool) (nodes : List Node)

def Node.id : Node → Int
  | .mk i _ _ => i

def Node.focused : Node → Bool
  | .mk _ f _ => f

def Node.nodes : Node → List Node
  | .mk _ _ ns => ns

mutual

/-- Number of nodes in a tree (strictly positive). -/
def Node.size : Node → Nat
  | .mk _ _ ns => 1 + sizeNodes ns

/-- Total number of nodes in a forest. -/
def sizeNodes : List Node → Nat
  | [] => 0
  | n :: ns => Node.size n + sizeNodes ns

end

theorem Node.size_eq (n : Node) : n.size = 1 + sizeNodes n.nodes := by
  cases n
  rfl

theorem sizeNodes_append (a b : List Node) :
    sizeNodes (a ++ b) = sizeNodes a + sizeNodes b := by
  induction a with
  | nil => simp [sizeNodes]
  | cons n ns ih => simp [sizeNodes, ih]; omega

theorem sizeNodes_reverse (l : List Node) :
    sizeNodes l.reverse = sizeNodes l := by
  induction l with
  | nil => rfl
  | cons n ns ih => simp [sizeNodes, List.reverse_cons, sizeNodes_append, ih]; omega

mutual

/-- Spec-side list of every node of a tree: the node itself followed by all
nodes of its subtrees. -/
def allNodes : Node → List Node
  | .mk i f ns => .mk i f ns :: allNodesList ns

/-- All nodes of a forest, in order. -/
def allNodesList : List Node → List Node
  | [] => []
  | n :: ns => allNodes n ++ allNodesList ns

end

theorem allNodesList_append (a b : List Node) :
    allNodesList (a ++ b) = allNodesList a ++ allNodesList b := by
  induction a with
  | nil => simp [allNodesList]
  | cons n ns ih => simp [allNodesList, ih]

/-- `i3.rs` `impl Iterator for AllWindows`: the full yield sequence of the
stack-driven iterator.  The Rust `Vec` stack pops from its end; the list here
keeps the stack top first, so `pop` is taking the head and
`stack.extend(node.nodes)` (which leaves the *last* child on top) is
`node.nodes.reverse ++ rest`. -/
def AllWindows.toList (stack : List Node) : List Node :=
  match stack with
  | [] => []
  | n :: rest => n :: AllWindows.toList (n.nodes.reverse ++ rest)
termination_by sizeNodes stack
decreasing_by
  simp [sizeNodes, sizeNodes_append, sizeNodes_reverse, Node.size_eq]

theorem AllWindows.toList_nil : AllWindows.toList [] = [] := by
  simp [AllWindows.toList]

theorem AllWindows.toList_cons (n : Node) (rest : List Node) :
    AllWindows.toList (n :: rest) = n :: AllWindows.toList (n.nodes.reverse ++ rest) := by
  rw [AllWindows.toList]

/-- Enumerating a reversed forest yields a permutation of enumerating the
forest. -/
theorem allNodesList_reverse_perm (l : List Node) :
    (allNodesList l.reverse).Perm (allNodesList l) := by
  induction l with
  | nil => exact List.Perm.refl _
  | cons n ns ih =>
    rw [List.reverse_cons, allNodesList_append]
    have h : (allNodesList ns.reverse ++ allNodesList [n]).Perm
        (allNodesList [n] ++ allNodesList ns) :=
      List.perm_append_comm.trans (List.Perm.append_left _ ih)
    simpa [allNodesList] using h

/-- The stack iterator yields a permutation of all nodes of the stacked
forest. -/
theorem AllWindows.toList_perm (stack : List Node) :
    (AllWindows.toList stack).Perm (allNodesList stack) := by
  match stack with
  | [] =>
    rw [AllWindows.toList_nil]
    exact List.Perm.refl _
  | n :: rest =>
    have ih := AllWindows.toList_perm (n.nodes.reverse ++ rest)
    rw [AllWindows.toList_cons]
    rw [allNodesList_append] at ih
    have h1 : (AllWindows.toList (n.nodes.reverse ++ rest)).Perm
        (allNodesList n.nodes ++ allNodesList rest) :=
      ih.trans (List.Perm.append_right _ (allNodesList_reverse_perm _))
    have e2 : allNodesList (n :: rest) = n :: (allNodesList n.nodes ++ allNodesList rest) := by
      cases n with
      | mk i f ns => simp [allNodesList, allNodes, Node.nodes]
    rw [e2]
    exact h1.cons n
termination_by sizeNodes stack
decreasing_by
  simp [sizeNodes, sizeNodes_append, sizeNodes_reverse, Node.size_eq]

/-- The i3ipc transport error (`i3ipc::MessageError`): the daemon never
inspects its payload, so a single constructor suffices. -/
inductive MessageError where
  | messageError
deriving DecidableEq

/-- One `I3Connection::run_command` round trip.  The source builds one
semicolon-separated command string per call; the payload here is the parsed
instruction list `[con_id=<id>] opacity <value>` it carries. -/
inductive WMCmd where
  | run (batch : List (Int × Opacity))
deriving DecidableEq

/-- Model of a live `I3Connection`: the container tree the window manager
would report, plus whether the `get_tree` (window enumeration) and
`run_command` round trips fail at the transport level. -/
structure I3Conn where
  tree : Node
  failTree : Bool
  failRun : Bool

/-- `i3.rs` `I3Ext::iter_windows`, fused with draining the `AllWindows`
iterator: push the root of `get_tree` and run the stack to exhaustion. -/
def iter_windows (conn : I3Conn) : Except MessageError (List Node) :=
  if conn.failTree then .error .messageError
  else .ok (AllWindows.toList [conn.tree])

/-- A single `run_command` round trip, recording the issued batch. -/
def run_command (conn : I3Conn) (batch : List (Int × Opacity)) :
    Except MessageError WMCmd :=
  if conn.failRun then .error .messageError else .ok (.run batch)

/-- `main.rs` `set_windows_opacity_to`: write every `[con_id=..] opacity ..;`
instruction into one command string and issue it with a single
`run_command`. -/
def set_windows_opacity_to (conn : I3Conn) (windows : List Int) (opacity : Opacity) :
    Except MessageError (List WMCmd) := do
  let c ← run_command conn (windows.map (fun id => (id, opacity)))
  pure [c]

/-- `i3.rs` `I3Ext::get_focused_window`: the first focused node of the
enumeration, if any. -/
def get_focused_window (conn : I3Conn) : Except MessageError (Option Int) := do
  let nodes ← iter_windows conn
  pure ((nodes.find? Node.focused).map Node.id)

/-- `main.rs` `remove_all_transparency`: enumerate every node id and set all of
them to maximum opacity in one batched command. -/
def remove_all_transparency (conn : I3Conn) : Except MessageError (List WMCmd) := do
  let nodes ← iter_windows conn
  set_windows_opacity_to conn (nodes.map Node.id) Opacity.max

/-- `main.rs` `struct Daemon`: the mutable daemon state. -/
structure Daemon where
  transparency_active : Bool
  transparency : Opacity
  blacklist : Finset Int

/-- Body of the `for node in i3_conn.iter_windows()?` loop of
`make_unfocused_windows_transparent`: overwrite the focused id when the node is
focused, otherwise push the id unless it is blacklisted. -/
def focusStep (bl : Finset Int) (acc : Option Int × List Int) (node : Node) :
    Option Int × List Int :=
  if node.focused then (some node.id, acc.2)
  else if node.id ∉ bl then (acc.1, acc.2 ++ [node.id])
  else acc

/-- The whole accumulation loop: remember the (last) focused node's id and
collect every unfocused, non-blacklisted id in traversal order. -/
def focusScan (bl : Finset Int) (nodes : List Node) : Option Int × List Int :=
  nodes.foldl (focusStep bl) (none, [])

/-- `main.rs` `Daemon::make_unfocused_windows_transparent`: no-op while
transparency is inactive; otherwise enumerate afresh, restore the focused
window to maximum opacity (its own `run_command`), then set every unfocused
non-blacklisted window to the live opacity in one batched command. -/
def Daemon.make_unfocused_windows_transparent (d : Daemon) (conn : I3Conn) :
    Except MessageError (List WMCmd) :=
  if !d.transparency_active then pure []
  else do
    let nodes ← iter_windows conn
    let acc := focusScan d.blacklist nodes
    let t1 ← match acc.1 with
      | some id => do
          let c ← run_command conn [(id, Opacity.max)]
          pure [c]
      | none => pure ([] : List WMCmd)
    let t2 ← set_windows_opacity_to conn acc.2 d.transparency
    pure (t1 ++ t2)

/-- `main.rs` `enum Cmd`: the five control commands. -/
inductive Cmd where
  | Disable
  | Enable
  | Toggle
  | FocusBlacklist
  | FocusBlacklistRemove
deriving DecidableEq

/-- `main.rs` `enum I3Event`: the pre-classified window-manager events. -/
inductive I3Event where
  | focusChanged
  | shutdown
  | closeWindow (id : Int)
deriving DecidableEq

/-- The coordinator's merged event alphabet: one constructor per `select!`
arm of `Daemon::run`. -/
inductive Event where
  | configReload (cfg : Config)
  | i3 (ev : I3Event)
  | ipc (cmd : Cmd)

/-- Outcome of one pass of the event loop body: keep looping with a new state
(having issued the recorded window-manager commands), or return cleanly on
`Shutdown`. -/
inductive StepResult where
  | next (d : Daemon) (trace : List WMCmd)
  | shutdown

/-- One iteration of the `select!` loop body of `main.rs` `Daemon::run`.
`Except.error` models the `?` operator: a window-manager transport error
propagates out of `run` and terminates the daemon. -/
def Daemon.step (d : Daemon) (conn : I3Conn) (ev : Event) :
    Except MessageError StepResult :=
  match ev with
  | .configReload cfg => do
      let d := { d with transparency := cfg.opacity }
      let tr ← d.make_unfocused_windows_transparent conn
      pure (.next d tr)
  | .i3 .focusChanged => do
      let tr ← d.make_unfocused_windows_transparent conn
      pure (.next d tr)
  | .i3 .shutdown => pure .shutdown
  | .i3 (.closeWindow id) =>
      pure (.next { d with blacklist := d.blacklist.erase id } [])
  | .ipc .Disable => do
      let d := { d with transparency_active := false }
      let tr ← remove_all_transparency conn
      pure (.next d tr)
  | .ipc .Enable => do
      let d := { d with transparency_active := true }
      let tr ← d.make_unfocused_windows_transparent conn
      pure (.next d tr)
  | .ipc .Toggle => do
      let d := { d with transparency_active := !d.transparency_active }
      if d.transparency_active then
        let tr ← d.make_unfocused_windows_transparent conn
        pure (.next d tr)
      else
        let tr ← remove_all_transparency conn
        pure (.next d tr)
  | .ipc .FocusBlacklist => do
      let focused ← get_focused_window conn
      match focused with
      | some id => pure (.next { d with blacklist := insert id d.blacklist } [])
      | none => pure (.next d [])
  | .ipc .FocusBlacklistRemove => do
      let focused ← get_focused_window conn
      match focused with
      | some id => pure (.next { d with blacklist := d.blacklist.erase id } [])
      | none => pure (.next d [])

/-- Spec-side reading of the focused id the loop ends with: the last focused
node of the enumeration. -/
def lastFocused (nodes : List Node) : Option Int :=
  ((nodes.filter Node.focused).getLast?).map Node.id

/-- Spec-side reading of the collected unfocused set: ids of the unfocused,
non-blacklisted nodes in enumeration order. -/
def unfocusedIds (bl : Finset Int) (nodes : List Node) : List Int :=
  (nodes.filter (fun n => !n.focused && decide (n.id ∉ bl))).map Node.id

theorem foldl_focusStep (bl : Finset Int) (nodes : List Node) :
    ∀ acc : Option Int × List Int,
      nodes.foldl (focusStep bl) acc
        = ((lastFocused nodes).or acc.1, acc.2 ++ unfocusedIds bl nodes) := by
  induction nodes using List.reverseRecOn with
  | nil =>
    intro acc
    simp [lastFocused, unfocusedIds]
  | append_singleton l n ih =>
    intro acc
    rw [List.foldl_append, List.foldl_cons, List.foldl_nil, ih]
    by_cases hf : n.focused = true
    · simp [focusStep, hf, lastFocused, unfocusedIds, List.filter_append]
    · by_cases hb : n.id ∈ bl
      · simp [focusStep, hf, hb, lastFocused, unfocusedIds, List.filter_append]
      · simp [focusStep, hf, hb, lastFocused, unfocusedIds, List.filter_append]

theorem focusScan_eq (bl : Finset Int) (nodes : List Node) :
    focusScan bl nodes = (lastFocused nodes, unfocusedIds bl nodes) := by
  rw [focusScan, foldl_focusStep]
  simp

/-- The command trace `make_unfocused_windows_transparent` produces on a
healthy connection, as the spec describes it: nothing while inactive;
otherwise an optional restore of the focused window to maximum opacity,
followed by one batched command setting every unfocused non-blacklisted
window to the live opacity. -/
def specFocusTrace (d : Daemon) (conn : I3Conn) : List WMCmd :=
  if d.transparency_active then
    ((lastFocused (AllWindows.toList [conn.tree])).elim []
        (fun id => [WMCmd.run [(id, Opacity.max)]]))
      ++ [WMCmd.run ((unfocusedIds d.blacklist (AllWindows.toList [conn.tree])).map
            (fun id => (id, d.transparency)))]
  else []

theorem make_unfocused_ok (d : Daemon) (conn : I3Conn)
    (h1 : conn.failTree = false) (h2 : conn.failRun = false) :
    d.make_unfocused_windows_transparent conn = .ok (specFocusTrace d conn) := by
  cases ha : d.transparency_active with
  | false =>
    simp [Daemon.make_unfocused_windows_transparent, specFocusTrace, ha, pure,
      Except.pure, Except.instMonad]
  | true =>
    simp only [Daemon.make_unfocused_windows_transparent, specFocusTrace, ha,
      Bool.not_true, Bool.false_eq_true, if_false, if_true, iter_windows, run_command,
      set_windows_opacity_to, h1, h2, bind, Except.instMonad, Except.bind, pure,
      Except.pure, focusScan_eq]
    cases hl : lastFocused (AllWindows.toList [conn.tree]) with
    | none => simp [hl]
    | some id => simp [hl]

theorem new_some_inRange (x : F64) (o : Opacity) (h : Opacity.new x = some o) :
    o.inRange := by
  rw [Opacity.new] at h
  split at h
  case isTrue hc =>
    cases x with
    | nan => simp [F64.ge, F64.le] at hc
    | neginf => simp [F64.ge, F64.le] at hc
    | posinf => simp [F64.ge, F64.le] at hc
    | finite q =>
      simp only [F64.ge, F64.le, Bool.and_eq_true, decide_eq_true_eq] at hc
      cases h
      exact ⟨q, rfl, hc.1, hc.2⟩
  case isFalse => cases h

theorem new_isSome_iff (x : F64) :
    (Opacity.new x).isSome = true ↔ ∃ q : ℚ, x = .finite q ∧ 0 ≤ q ∧ q ≤ 1 := by
  cases x with
  | nan => simp [Opacity.new, F64.ge, F64.le]
  | neginf => simp [Opacity.new, F64.ge, F64.le]
  | posinf => simp [Opacity.new, F64.ge, F64.le]
  | finite q =>
    by_cases h0 : 0 ≤ q
    · by_cases h1 : q ≤ 1
      · simp [Opacity.new, F64.ge, F64.le, h0, h1]
      · simp [Opacity.new, F64.ge, F64.le, h0, h1]
    · simp [Opacity.new, F64.ge, F64.le, h0]

/-- Claim C4: `Opacity::new(x)` succeeds exactly when `0.0 <= x <= 1.0` holds
as an IEEE comparison — i.e. exactly when `x` is a finite value in `[0, 1]`
(NaN and out-of-range values fail; nothing is clamped); every constructed
`Opacity` lies in `[0, 1]`; and `Opacity::max()` is the valid opacity `1.0`
(it is what `new` yields at `1.0`). -/
theorem claim_c4_opacity_new :
    (∀ x : F64, (Opacity.new x).isSome = true ↔ ∃ q : ℚ, x = .finite q ∧ 0 ≤ q ∧ q ≤ 1)
    ∧ (∀ (x : F64) (o : Opacity), Opacity.new x = some o → o.inRange)
    ∧ Opacity.new (.finite 1) = some Opacity.max
    ∧ Opacity.max.inRange := by
  refine ⟨new_isSome_iff, new_some_inRange, ?_, 1, rfl, by norm_num⟩
  simp [Opacity.new, F64.ge, F64.le, Opacity.max]

theorem claim_c4_opacity_new_witness :
    Opacity.inRange ⟨F64.finite 0⟩ :=
  claim_c4_opacity_new.2.1 (F64.finite 0) ⟨F64.finite 0⟩
    (by simp [Opacity.new, F64.ge, F64.le])

/-- Claim C10: `Opacity::new(NaN)` fails, the configuration deserializer
(`OpacityVisitor::visit_f64`) also rejects NaN, and every opacity obtained
through deserialization is a finite real number in `[0, 1]`. -/
theorem claim_c10_nan_rejected :
    Opacity.new F64.nan = none
    ∧ OpacityVisitor.visit_f64 F64.nan = .error ()
    ∧ (∀ (x : F64) (o : Opacity), OpacityVisitor.visit_f64 x = .ok o → o.inRange) := by
  refine ⟨rfl, rfl, ?_⟩
  intro x o h
  rw [OpacityVisitor.visit_f64] at h
  cases hn : Opacity.new x with
  | none => rw [hn] at h; simp at h
  | some o' =>
    rw [hn] at h
    simp only [Except.ok.injEq] at h
    subst h
    exact new_some_inRange x o' hn

theorem claim_c10_nan_rejected_witness :
    Opacity.inRange ⟨F64.finite 1⟩ :=
  claim_c10_nan_rejected.2.2 (F64.finite 1) ⟨F64.finite 1⟩
    (by simp [OpacityVisitor.visit_f64, Opacity.new, F64.ge, F64.le])

/-- Claim C9: draining the `AllWindows` iterator started at the tree root
yields every node of the tree exactly once (stated as: the yield sequence is a
permutation of the full node list, so containers, workspaces and the root
itself are all included), the root among them; the iterator terminates on
every finite tree (the model's enumeration is total). -/
theorem claim_c9_enumeration_complete :
    ∀ t : Node,
      ((AllWindows.toList [t]).Perm (allNodes t)) ∧ t ∈ AllWindows.toList [t] := by
  intro t
  have hp : (AllWindows.toList [t]).Perm (allNodesList [t]) := AllWindows.toList_perm [t]
  have e : allNodesList [t] = allNodes t := by simp [allNodesList]
  rw [e] at hp
  refine ⟨hp, ?_⟩
  have hmem : t ∈ allNodes t := by
    cases t with
    | mk i f ns => simp [allNodes]
  exact hp.mem_iff.mpr hmem

/-- Claim C2: on `FocusChanged`, when transparency is active the daemon
recomputes, from a fresh enumeration, the focused id (the last focused node
the loop sees) and the unfocused non-blacklisted ids, restores the focused
window to maximum opacity, and sets all qualifying unfocused windows to the
live opacity in one batched command (`specFocusTrace` contains exactly one
`WMCmd.run` covering that whole set); when transparency is inactive
`specFocusTrace` is `[]`, so no window-manager command is issued — and in both
cases the daemon state is returned unchanged. -/
theorem claim_c2_focus_changed :
    ∀ (d : Daemon) (conn : I3Conn), conn.failTree = false → conn.failRun = false →
      d.step conn (.i3 .focusChanged) = .ok (.next d (specFocusTrace d conn))
      ∧ (d.transparency_active = false → specFocusTrace d conn = []) := by
  intro d conn h1 h2
  constructor
  · simp [Daemon.step, make_unfocused_ok d conn h1 h2, bind, Except.instMonad,
      Except.bind, pure, Except.pure]
  · intro ha
    simp [specFocusTrace, ha]

theorem claim_c2_focus_changed_witness :
    Daemon.step ⟨true, Opacity.max, ∅⟩ ⟨Node.mk 1 true [], false, false⟩ (.i3 .focusChanged)
      = .ok (.next ⟨true, Opacity.max, ∅⟩
          (specFocusTrace ⟨true, Opacity.max, ∅⟩ ⟨Node.mk 1 true [], false, false⟩)) :=
  (claim_c2_focus_changed ⟨true, Opacity.max, ∅⟩ ⟨Node.mk 1 true [], false, false⟩ rfl rfl).1

/-- Claim C5: processing `Disable` turns `transparency_active` off and issues
one batched command restoring maximum opacity to every enumerated node — the
batch is computed without consulting the blacklist (the trace term does not
mention `d.blacklist`), and every node of the tree, blacklisted or not, has
its `(id, max)` instruction in the batch. -/
theorem claim_c5_disable :
    ∀ (d : Daemon) (conn : I3Conn), conn.failTree = false → conn.failRun = false →
      d.step conn (.ipc .Disable)
        = .ok (.next { d with transparency_active := false }
            [WMCmd.run ((AllWindows.toList [conn.tree]).map (fun n => (n.id, Opacity.max)))])
      ∧ ∀ n ∈ allNodes conn.tree,
          (n.id, Opacity.max)
            ∈ (AllWindows.toList [conn.tree]).map (fun n => (n.id, Opacity.max)) := by
  intro d conn h1 h2
  constructor
  · simp [Daemon.step, remove_all_transparency, iter_windows, h1, set_windows_opacity_to,
      run_command, h2, bind, Except.instMonad, Except.bind, pure, Except.pure]
  · intro n hn
    have hperm := AllWindows.toList_perm [conn.tree]
    have hmem : n ∈ AllWindows.toList [conn.tree] := by
      rw [hperm.mem_iff]
      simpa [allNodesList] using hn
    exact List.mem_map_of_mem _ hmem

theorem claim_c5_disable_witness :
    Daemon.step ⟨true, Opacity.max, {1}⟩ ⟨Node.mk 1 true [], false, false⟩ (.ipc .Disable)
      = .ok (.next ⟨false, Opacity.max, {1}⟩
          [WMCmd.run ((AllWindows.toList [Node.mk 1 true []]).map
              (fun n => (n.id, Opacity.max)))]) :=
  (claim_c5_disable ⟨true, Opacity.max, {1}⟩ ⟨Node.mk 1 true [], false, false⟩ rfl rfl).1

/-- Claim C8: processing a config reload replaces only the live opacity with
`cfg.opacity` (`transparency_active` and the blacklist are returned verbatim),
the snapshot's `transparency_at_start` flag is ignored (changing it changes
nothing), and the resulting trace is the usual re-application of transparency
(`specFocusTrace` at the updated state: the unfocused re-apply when active,
empty when inactive). -/
theorem claim_c8_config_reload :
    ∀ (d : Daemon) (conn : I3Conn) (cfg : Config),
      conn.failTree = false → conn.failRun = false →
      d.step conn (.configReload cfg)
        = .ok (.next
            { transparency_active := d.transparency_active,
              transparency := cfg.opacity,
              blacklist := d.blacklist }
            (specFocusTrace { d with transparency := cfg.opacity } conn))
      ∧ (∀ b : Bool,
          d.step conn (.configReload { cfg with transparency_at_start := b })
            = d.step conn (.configReload cfg)) := by
  intro d conn cfg h1 h2
  constructor
  · simp [Daemon.step,
      make_unfocused_ok { d with transparency := cfg.opacity } conn h1 h2,
      bind, Except.instMonad, Except.bind, pure, Except.pure]
  · intro b
    rfl

theorem claim_c8_config_reload_witness :
    Daemon.step ⟨false, Opacity.max, ∅⟩ ⟨Node.mk 1 true [], false, false⟩
        (.configReload ⟨true, ⟨F64.finite 0⟩⟩)
      = .ok (.next ⟨false, ⟨F64.finite 0⟩, ∅⟩
          (specFocusTrace ⟨false, ⟨F64.finite 0⟩, ∅⟩ ⟨Node.mk 1 true [], false, false⟩)) :=
  (claim_c8_config_reload ⟨false, Opacity.max, ∅⟩ ⟨Node.mk 1 true [], false, false⟩
    ⟨true, ⟨F64.finite 0⟩⟩ rfl rfl).1

/-- Whether processing `ev` in state `d` performs a window-manager round trip
(enumeration or command); read off the branches of `Daemon::run`. -/
def touchesWM (d : Daemon) (ev : Event) : Bool :=
  match ev with
  | .configReload _ => d.transparency_active
  | .i3 .focusChanged => d.transparency_active
  | .i3 .shutdown => false
  | .i3 (.closeWindow _) => false
  | .ipc _ => true

/-- Claim C1 counterexample: a concrete daemon state (transparency active)
and a concrete event (`FocusChanged`) on a connection whose enumeration round
trip fails.  The event-loop body returns `Except.error` — the `?` operator in
`Daemon::run` propagates the failure out of the loop, terminating the daemon —
rather than logging, discarding the event, and continuing as the claim
states (continuing would be an `Except.ok (.next ..)` result). -/
theorem claim_c1_counterexample :
    Daemon.step ⟨true, Opacity.max, ∅⟩ ⟨Node.mk 1 true [], true, false⟩ (.i3 .focusChanged)
      = .error .messageError := rfl

/-- Whether processing `ev` in state `d` reaches a `run_command` (an opacity
command): with transparency active, `make_unfocused_windows_transparent`
always issues at least its batched command (even for an empty unfocused set),
and `remove_all_transparency` always issues its batch — so `Disable`,
`Enable` and `Toggle` always do, `ConfigReloaded`/`FocusChanged` exactly when
transparency is active, and the blacklist commands only enumerate. -/
def issuesOpacityCmd (d : Daemon) (ev : Event) : Bool :=
  match ev with
  | .configReload _ => d.transparency_active
  | .i3 .focusChanged => d.transparency_active
  | .i3 .shutdown => false
  | .i3 (.closeWindow _) => false
  | .ipc .Disable => true
  | .ipc .Enable => true
  | .ipc .Toggle => true
  | .ipc .FocusBlacklist => false
  | .ipc .FocusBlacklistRemove => false

theorem make_unfocused_failRun (d : Daemon) (conn : I3Conn)
    (ha : d.transparency_active = true) (hr : conn.failRun = true) :
    d.make_unfocused_windows_transparent conn = .error .messageError := by
  rw [Daemon.make_unfocused_windows_transparent]
  cases hf : conn.failTree with
  | true =>
    simp [ha, iter_windows, hf, bind, Except.instMonad, Except.bind]
  | false =>
    simp only [ha, Bool.not_true, Bool.false_eq_true, if_false, iter_windows, hf,
      bind, Except.instMonad, Except.bind]
    cases hsc : (focusScan d.blacklist (AllWindows.toList [conn.tree])).1 with
    | none =>
      simp [hsc, set_windows_opacity_to, run_command, hr, bind, Except.instMonad,
        Except.bind, pure, Except.pure]
    | some i =>
      simp [hsc, run_command, hr, bind, Except.instMonad, Except.bind, pure, Except.pure]

theorem remove_all_failRun (conn : I3Conn) (hr : conn.failRun = true) :
    remove_all_transparency conn = .error .messageError := by
  rw [remove_all_transparency]
  cases hf : conn.failTree with
  | true => simp [iter_windows, hf, bind, Except.instMonad, Except.bind]
  | false =>
    simp [iter_windows, hf, set_windows_opacity_to, run_command, hr,
      bind, Except.instMonad, Except.bind]

/-- Claim C1 (amended): a window-manager round-trip failure while processing
an event is not recovered from.  Both failure modes propagate: (1) whenever
the processing of an event performs a window-manager round trip and the
enumeration (`get_tree`) transport fails, and (2) whenever the processing
issues an opacity command and the `run_command` transport fails — even with a
healthy enumeration — the event-loop body returns the error (terminating the
daemon) instead of logging it and continuing. -/
theorem claim_c1_amended :
    (∀ (d : Daemon) (conn : I3Conn) (ev : Event),
      conn.failTree = true → touchesWM d ev = true →
      d.step conn ev = .error .messageError)
    ∧ (∀ (d : Daemon) (conn : I3Conn) (ev : Event),
      conn.failRun = true → issuesOpacityCmd d ev = true →
      d.step conn ev = .error .messageError) := by
  constructor
  · intro d conn ev hf ht
    cases ev with
    | configReload cfg =>
      simp only [touchesWM] at ht
      simp [Daemon.step, Daemon.make_unfocused_windows_transparent, ht, iter_windows, hf,
        bind, Except.instMonad, Except.bind]
    | i3 e =>
      cases e with
      | focusChanged =>
        simp only [touchesWM] at ht
        simp [Daemon.step, Daemon.make_unfocused_windows_transparent, ht, iter_windows, hf,
          bind, Except.instMonad, Except.bind]
      | shutdown => simp [touchesWM] at ht
      | closeWindow id => simp [touchesWM] at ht
    | ipc c =>
      cases c with
      | Disable =>
        simp [Daemon.step, remove_all_transparency, iter_windows, hf,
          bind, Except.instMonad, Except.bind]
      | Enable =>
        simp [Daemon.step, Daemon.make_unfocused_windows_transparent, iter_windows, hf,
          bind, Except.instMonad, Except.bind]
      | Toggle =>
        cases ha : d.transparency_active with
        | false =>
          simp [Daemon.step, ha, Daemon.make_unfocused_windows_transparent, iter_windows, hf,
            bind, Except.instMonad, Except.bind]
        | true =>
          simp [Daemon.step, ha, remove_all_transparency, iter_windows, hf,
            bind, Except.instMonad, Except.bind]
      | FocusBlacklist =>
        simp [Daemon.step, get_focused_window, iter_windows, hf,
          bind, Except.instMonad, Except.bind]
      | FocusBlacklistRemove =>
        simp [Daemon.step, get_focused_window, iter_windows, hf,
          bind, Except.instMonad, Except.bind]
  · intro d conn ev hr ht
    cases ev with
    | configReload cfg =>
      simp only [issuesOpacityCmd] at ht
      simp [Daemon.step, make_unfocused_failRun { d with transparency := cfg.opacity } conn ht hr,
        bind, Except.instMonad, Except.bind]
    | i3 e =>
      cases e with
      | focusChanged =>
        simp only [issuesOpacityCmd] at ht
        simp [Daemon.step, make_unfocused_failRun d conn ht hr,
          bind, Except.instMonad, Except.bind]
      | shutdown => simp [issuesOpacityCmd] at ht
      | closeWindow id => simp [issuesOpacityCmd] at ht
    | ipc c =>
      cases c with
      | Disable =>
        simp [Daemon.step, remove_all_failRun conn hr, bind, Except.instMonad, Except.bind]
      | Enable =>
        simp [Daemon.step,
          make_unfocused_failRun { d with transparency_active := true } conn rfl hr,
          bind, Except.instMonad, Except.bind]
      | Toggle =>
        cases ha : d.transparency_active with
        | false =>
          simp [Daemon.step, ha,
            make_unfocused_failRun { d with transparency_active := true } conn rfl hr,
            bind, Except.instMonad, Except.bind]
        | true =>
          simp [Daemon.step, ha, remove_all_failRun conn hr,
            bind, Except.instMonad, Except.bind]
      | FocusBlacklist => simp [issuesOpacityCmd] at ht
      | FocusBlacklistRemove => simp [issuesOpacityCmd] at ht

theorem claim_c1_amended_witness :
    (Daemon.step ⟨false, Opacity.max, ∅⟩ ⟨Node.mk 2 false [], true, false⟩ (.ipc .Disable)
      = .error .messageError)
    ∧ (Daemon.step ⟨true, Opacity.max, ∅⟩ ⟨Node.mk 1 true [], false, true⟩ (.i3 .focusChanged)
      = .error .messageError) :=
  ⟨claim_c1_amended.1 ⟨false, Opacity.max, ∅⟩ ⟨Node.mk 2 false [], true, false⟩
      (.ipc .Disable) rfl rfl,
   claim_c1_amended.2 ⟨true, Opacity.max, ∅⟩ ⟨Node.mk 1 true [], false, true⟩
      (.i3 .focusChanged) rfl rfl⟩

/-- The three blacklist-affecting operations as the event loop processes them:
the two ipc commands observe the window focused at processing time (`None`
when nothing is focused), `windowClosed` carries the closed window's id. -/
inductive BLOp where
  | focusBlacklist (focused : Option Int)
  | focusBlacklistRemove (focused : Option Int)
  | windowClosed (id : Int)

/-- Action of one operation on the blacklist, read off the three branches of
`Daemon::run` (`insert` on `FocusBlacklist`, `remove` on the other two; no-ops
when nothing is focused); the bridge lemmas below equate it with the blacklist
component of `Daemon.step`. -/
def blOpApply (bl : Finset Int) : BLOp → Finset Int
  | .focusBlacklist (some i) => insert i bl
  | .focusBlacklist none => bl
  | .focusBlacklistRemove (some i) => bl.erase i
  | .focusBlacklistRemove none => bl
  | .windowClosed i => bl.erase i

theorem step_closeWindow_blacklist (d : Daemon) (conn : I3Conn) (i : Int) :
    d.step conn (.i3 (.closeWindow i))
      = .ok (.next { d with blacklist := blOpApply d.blacklist (.windowClosed i) } []) := rfl

theorem step_focusBlacklist_blacklist (d : Daemon) (conn : I3Conn)
    (h1 : conn.failTree = false) :
    d.step conn (.ipc .FocusBlacklist)
      = .ok (.next
          { d with blacklist := blOpApply d.blacklist (.focusBlacklist
              (((AllWindows.toList [conn.tree]).find? Node.focused).map Node.id)) } []) := by
  simp only [Daemon.step, get_focused_window, iter_windows, h1, Bool.false_eq_true,
    if_false, bind, Except.instMonad, Except.bind, pure, Except.pure]
  cases hf : ((AllWindows.toList [conn.tree]).find? Node.focused).map Node.id with
  | none => simp [blOpApply]
  | some i => simp [blOpApply]

theorem step_focusBlacklistRemove_blacklist (d : Daemon) (conn : I3Conn)
    (h1 : conn.failTree = false) :
    d.step conn (.ipc .FocusBlacklistRemove)
      = .ok (.next
          { d with blacklist := blOpApply d.blacklist (.focusBlacklistRemove
              (((AllWindows.toList [conn.tree]).find? Node.focused).map Node.id)) } []) := by
  simp only [Daemon.step, get_focused_window, iter_windows, h1, Bool.false_eq_true,
    if_false, bind, Except.instMonad, Except.bind, pure, Except.pure]
  cases hf : ((AllWindows.toList [conn.tree]).find? Node.focused).map Node.id with
  | none => simp [blOpApply]
  | some i => simp [blOpApply]

/-- Is this operation about the id `i`?  `FocusBlacklist`/`FocusBlacklistRemove`
are relevant when the focused window was `i`; `windowClosed i` is always
relevant to `i`. -/
def relevantTo (i : Int) : BLOp → Bool
  | .focusBlacklist (some j) => j == i
  | .focusBlacklist none => false
  | .focusBlacklistRemove (some j) => j == i
  | .focusBlacklistRemove none => false
  | .windowClosed j => j == i

/-- Does this operation add its id (only a `FocusBlacklist` that saw a focused
window does)? -/
def isAdd : BLOp → Bool
  | .focusBlacklist (some _) => true
  | _ => false

theorem mem_blOpApply_irrelevant (bl : Finset Int) (op : BLOp) (i : Int)
    (h : relevantTo i op = false) : i ∈ blOpApply bl op ↔ i ∈ bl := by
  cases op with
  | focusBlacklist f =>
    cases f with
    | none => simp [blOpApply]
    | some j =>
      simp only [relevantTo, beq_eq_false_iff_ne, ne_eq] at h
      simp only [blOpApply, Finset.mem_insert]
      constructor
      · intro hm
        exact hm.resolve_left (fun e => h e.symm)
      · exact Or.inr
  | focusBlacklistRemove f =>
    cases f with
    | none => simp [blOpApply]
    | some j =>
      simp only [relevantTo, beq_eq_false_iff_ne, ne_eq] at h
      simp only [blOpApply, Finset.mem_erase, ne_eq]
      exact ⟨fun hm => hm.2, fun hm => ⟨fun e => h e.symm, hm⟩⟩
  | windowClosed j =>
    simp only [relevantTo, beq_eq_false_iff_ne, ne_eq] at h
    simp only [blOpApply, Finset.mem_erase, ne_eq]
    exact ⟨fun hm => hm.2, fun hm => ⟨fun e => h e.symm, hm⟩⟩

/-- Claim C3: starting from the empty blacklist, after any sequence of
`FocusBlacklist` / `FocusBlacklistRemove` / `WindowClosed` operations, `i` is
a member exactly when the last operation relevant to `i` is an add (a
`FocusBlacklist` that saw `i` focused) — in particular a trailing
`WindowClosed(i)` always clears membership, and the blacklist only contains
ids that were explicitly blacklisted and not since removed or closed. -/
theorem claim_c3_blacklist :
    ∀ (ops : List BLOp) (i : Int),
      i ∈ ops.foldl blOpApply ∅
        ↔ ∃ op, (ops.filter (relevantTo i)).getLast? = some op ∧ isAdd op = true := by
  intro ops i
  induction ops using List.reverseRecOn with
  | nil => simp
  | append_singleton l op ih =>
    rw [List.foldl_append, List.foldl_cons, List.foldl_nil, List.filter_append]
    by_cases hrel : relevantTo i op = true
    · rw [show List.filter (relevantTo i) [op] = [op] by simp [hrel],
        List.getLast?_concat]
      cases op with
      | focusBlacklist f =>
        cases f with
        | none => simp [relevantTo] at hrel
        | some j =>
          simp only [relevantTo, beq_iff_eq] at hrel
          subst hrel
          simp [blOpApply, Finset.mem_insert, isAdd]
      | focusBlacklistRemove f =>
        cases f with
        | none => simp [relevantTo] at hrel
        | some j =>
          simp only [relevantTo, beq_iff_eq] at hrel
          subst hrel
          simp [blOpApply, Finset.mem_erase, isAdd]
      | windowClosed j =>
        simp only [relevantTo, beq_iff_eq] at hrel
        subst hrel
        simp [blOpApply, Finset.mem_erase, isAdd]
    · have hrel' : relevantTo i op = false := by simpa using hrel
      rw [show List.filter (relevantTo i) [op] = [] by simp [hrel'],
        List.append_nil, mem_blOpApply_irrelevant _ _ _ hrel']
      exact ih

/-- Modelled from the spec: the wire format (spec §6) is implemented outside
`src/` by `serde_cbor` together with the derived `Serialize`/`Deserialize`
impls for `Cmd` (`send_cmd` / `Incoming::accept` only stream it).  A unit enum
variant is encoded as a self-describing CBOR text string of the variant's
name: one header byte `0x60 + length` followed by the name's UTF-8 bytes —
"a compact binary serialization with unambiguous framing for the closed
five-variant `Command` enumeration".  The variant names' bytes: -/
def nameBytes : Cmd → List Nat
  | .Disable => [68, 105, 115, 97, 98, 108, 101]
  | .Enable => [69, 110, 97, 98, 108, 101]
  | .Toggle => [84, 111, 103, 103, 108, 101]
  | .FocusBlacklist => [70, 111, 99, 117, 115, 66, 108, 97, 99, 107, 108, 105, 115, 116]
  | .FocusBlacklistRemove =>
      [70, 111, 99, 117, 115, 66, 108, 97, 99, 107, 108, 105, 115, 116,
       82, 101, 109, 111, 118, 101]

/-- Encoding side (`ipc.rs` `send_cmd` via `serde_cbor::to_writer`): header
byte then name bytes (every name is shorter than 24, so the length fits in the
header byte). -/
def encodeCmd (c : Cmd) : List Nat :=
  (0x60 + (nameBytes c).length) :: nameBytes c

/-- Decode failure categories (`serde_cbor::error::Error`, collapsed to what
the claim distinguishes). -/
inductive DecodeErr where
  | truncated
  | invalid
deriving DecidableEq

/-- Decoding side (`ipc.rs` `Incoming::accept` via `serde_cbor::from_reader`):
read one short text string and match it against the five variant names; an
empty or short payload is a truncation error, anything else unrecognized is
invalid.  Total function — no panic is possible. -/
def decodeCmd (bs : List Nat) : Except DecodeErr Cmd :=
  match bs with
  | [] => .error .truncated
  | h :: rest =>
    if h < 0x60 ∨ 0x77 < h then .error .invalid
    else if rest.length < h - 0x60 then .error .truncated
    else
      let payload := rest.take (h - 0x60)
      if payload = nameBytes .Disable then .ok .Disable
      else if payload = nameBytes .Enable then .ok .Enable
      else if payload = nameBytes .Toggle then .ok .Toggle
      else if payload = nameBytes .FocusBlacklist then .ok .FocusBlacklist
      else if payload = nameBytes .FocusBlacklistRemove then .ok .FocusBlacklistRemove
      else .error .invalid

/-- Claim C6: encoding then decoding each of the five `Cmd` variants yields
the identical variant back; the empty payload fails to decode, and so does
every proper prefix (truncation) of any encoded command — always with an
error value (the decoder is a total function), never a panic or crash. -/
theorem claim_c6_roundtrip :
    (∀ c : Cmd, decodeCmd (encodeCmd c) = .ok c)
    ∧ decodeCmd [] = .error DecodeErr.truncated
    ∧ (∀ c : Cmd, ∀ k : Fin (encodeCmd c).length,
        (decodeCmd ((encodeCmd c).take k.val)).isOk = false) := by
  refine ⟨?_, rfl, ?_⟩
  · intro c
    cases c <;> rfl
  · intro c
    cases c <;> decide

/-- Modelled from the spec: the advisory-lock semantics behind
`FileLock::lock` (`fs2::FileExt::try_lock_exclusive`, a non-blocking
`flock(LOCK_EX | LOCK_NB)` on the opened lock file) live in the operating
system, outside `src/`.  The lock state for the daemon's lock path is the pid
of the live process currently holding it, if any; the descriptor is kept open
for the holder's whole lifetime, so the lock is released exactly when the
holding process exits. -/
abbrev LockState := Option Nat

/-- The only lock error `IpcServer::new` surfaces: `AlreadyRunning`. -/
inductive LockErr where
  | alreadyRunning
deriving DecidableEq

/-- `ipc.rs` `FileLock::lock`: one non-blocking exclusive-lock attempt —
record the caller as holder if the lock is free, otherwise fail immediately
(the function performs a single attempt: no blocking, no retry). -/
def FileLock.lock (pid : Nat) (s : LockState) : Except LockErr LockState :=
  match s with
  | some _ => .error .alreadyRunning
  | none => .ok (some pid)

/-- Implicit release on process exit: the holder's open descriptor is closed
by the kernel, freeing the advisory lock. -/
def processExit (pid : Nat) (s : LockState) : LockState :=
  if s = some pid then none else s

/-- Claim C7: acquiring the lock while a live process holds it fails
immediately with `AlreadyRunning` (a single non-blocking attempt — the model
is a total function of the current state, with no retry); once the holder's
process has exited, a fresh acquire on the same path succeeds. -/
theorem claim_c7_instance_lock :
    (∀ (p q : Nat) (s : LockState), s = some q →
        FileLock.lock p s = .error .alreadyRunning)
    ∧ (∀ p q : Nat, FileLock.lock p (processExit q (some q)) = .ok (some p)) := by
  constructor
  · intro p q s hs
    subst hs
    rfl
  · intro p q
    simp [processExit, FileLock.lock]

theorem claim_c7_instance_lock_witness :
    FileLock.lock 1 (some 2) = .error .alreadyRunning :=
  claim_c7_instance_lock.1 1 2 (some 2) rfl
